import Mathlib

/-!
Verification of the compaction safeguard extension
(`src/agents/pi-extensions/compaction-safeguard.ts`).

The TypeScript source is shallowly embedded below.  JavaScript strings are
modelled as Lean `String`; the JavaScript operations `slice(0, n)`,
`trim()`, `toLowerCase()` and whitespace normalisation are implemented on
the underlying character list so that every definition evaluates inside the
kernel.  JavaScript numbers are modelled as `ℚ` (with `Int.floor` for
`Math.floor`), and values that may be `undefined` are modelled as `Option`.

The functions imported from `../compaction.js` (the staged summarizer, the
history pruner, the token estimator, the adaptive chunk-ratio calculator and
the context-window resolver) are not part of the analysed sources; they are
treated as injected capabilities of an environment record, except where the
specification pins their behaviour down, in which case they are modelled
from the specification (see the doc comments marked accordingly).
-/

/-- Models JavaScript `s.slice(0, n)` on our string model. -/
def jsTake (s : String) (n : Nat) : String := ⟨s.data.take n⟩

/-- Models JavaScript `s.trim()`: strips leading and trailing whitespace. -/
def jsTrim (s : String) : String :=
  ⟨(s.data.dropWhile Char.isWhitespace).reverse.dropWhile Char.isWhitespace |>.reverse⟩

/-- Models JavaScript `s.toLowerCase()` (per character). -/
def jsToLower (s : String) : String := ⟨s.data.map Char.toLower⟩

/-- Models splitting a string at newline characters, as JavaScript
`s.split("\n")` does; used for `cmd.split("\n")[0]`. -/
def jsFirstLine (s : String) : String := ⟨s.data.takeWhile (fun c => c ≠ '\n')⟩

/-- A typed content block of a message; only text blocks carry data that the
safeguard reads. -/
inductive ContentBlock where
  | text (t : String)
  | other
deriving DecidableEq

/-- Message content: a plain string, an array of blocks, or anything else
(modelled as `empty`). -/
inductive MsgContent where
  | str (s : String)
  | blocks (bs : List ContentBlock)
  | empty
deriving DecidableEq

/-- The `details` object of a tool-result message, as read by
`formatToolFailureMeta`: an optional `status` string and an optional finite
numeric `exitCode`. -/
structure ToolDetails where
  status : Option String
  exitCode : Option Int
deriving DecidableEq

/-- An `AgentMessage` as read by the safeguard.  `toolCallId` and `toolName`
are `""` when absent or not a string (mirroring the `typeof` checks of the
source); `isError` is true exactly when the source field is `=== true`. -/
structure Message where
  role : String
  content : MsgContent
  toolCallId : String
  toolName : String
  isError : Bool
  details : Option ToolDetails
deriving DecidableEq

/-- `extractMessageText` of the source: string content is returned as-is,
array content contributes its text blocks joined by newlines, anything else
yields the empty string. -/
def extractMessageText (m : Message) : String :=
  match m.content with
  | .str s => s
  | .blocks bs =>
      String.intercalate "\n" (bs.filterMap fun b =>
        match b with
        | .text t => some t
        | .other => none)
  | .empty => ""

-- =============================================================================
-- Tool failure handling (source lines 421-519)
-- =============================================================================

/-- The fixed fallback summary text (source constant `FALLBACK_SUMMARY`). -/
def FALLBACK_SUMMARY : String :=
  "Summary unavailable due to context limits. Older messages were truncated."

/-- The fixed instructions used for the turn-prefix summarization pass
(source constant `TURN_PREFIX_INSTRUCTIONS`). -/
def TURN_PREFIX_INSTRUCTIONS : String :=
  "This summary covers the prefix of a split turn. Focus on the original request," ++
  " early progress, and any details needed to understand the retained suffix."

def MAX_TOOL_FAILURES : Nat := 8

def MAX_TOOL_FAILURE_CHARS : Nat := 240

structure ToolFailure where
  toolCallId : String
  toolName : String
  summary : String
  meta : Option String
deriving DecidableEq

/-- `normalizeFailureText`: replaces every whitespace run by a single space
and trims; implemented by splitting into whitespace-free words and joining
them with single spaces, which is the same function. -/
def normalizeFailureText (text : String) : String :=
  ⟨List.intercalate [' '] ((text.data.splitOnP Char.isWhitespace).filter (· ≠ []))⟩

/-- `truncateFailureText`: keeps the text when it fits, otherwise takes
`maxChars - 3` characters and appends an ellipsis. -/
def truncateFailureText (text : String) (maxChars : Nat) : String :=
  if text.length ≤ maxChars then text
  else jsTake text (maxChars - 3) ++ "..."

/-- `formatToolFailureMeta`: renders `status=...` and `exitCode=...` parts,
or nothing when the details object is absent or carries neither field. -/
def formatToolFailureMeta (details : Option ToolDetails) : Option String :=
  match details with
  | none => none
  | some record =>
      let parts : List String :=
        (match record.status with
         | some status => ["status=" ++ status]
         | none => []) ++
        (match record.exitCode with
         | some exitCode => ["exitCode=" ++ toString exitCode]
         | none => [])
      if parts.length > 0 then some (String.intercalate " " parts) else none

/-- `extractToolResultText`: array content contributes its text blocks
joined by newlines; any non-array content yields the empty string. -/
def extractToolResultText (content : MsgContent) : String :=
  match content with
  | .blocks bs =>
      String.intercalate "\n" (bs.filterMap fun b =>
        match b with
        | .text t => some t
        | .other => none)
  | _ => ""

/-- Builds the `ToolFailure` record for one failed tool-result message
(body of the loop of `collectToolFailures`). -/
def mkToolFailure (m : Message) : ToolFailure :=
  let toolName := if jsTrim m.toolName ≠ "" then m.toolName else "tool"
  let rawText := extractToolResultText m.content
  let meta := formatToolFailureMeta m.details
  let normalized := normalizeFailureText rawText
  let summary := truncateFailureText
    (if normalized ≠ "" then normalized
     else if meta.isSome then "failed" else "failed (no output)")
    MAX_TOOL_FAILURE_CHARS
  { toolCallId := m.toolCallId, toolName := toolName, summary := summary, meta := meta }

/-- The loop of `collectToolFailures`, with the `seen` set made explicit. -/
def collectToolFailuresAux (seen : List String) : List Message → List ToolFailure
  | [] => []
  | m :: ms =>
      if m.role = "toolResult" ∧ m.isError = true then
        if m.toolCallId = "" ∨ m.toolCallId ∈ seen then
          collectToolFailuresAux seen ms
        else
          mkToolFailure m :: collectToolFailuresAux (m.toolCallId :: seen) ms
      else collectToolFailuresAux seen ms

/-- `collectToolFailures`: one failure record per first occurrence of each
non-empty `toolCallId` among error tool results. -/
def collectToolFailures (messages : List Message) : List ToolFailure :=
  collectToolFailuresAux [] messages

/-- The list of rendered lines of the tool-failure section (the `lines`
array of `formatToolFailuresSection`, including the overflow line). -/
def toolFailureLines (failures : List ToolFailure) : List String :=
  let lines := (failures.take MAX_TOOL_FAILURES).map fun failure =>
    let meta := match failure.meta with
      | some meta => " (" ++ meta ++ ")"
      | none => ""
    "- " ++ failure.toolName ++ meta ++ ": " ++ failure.summary
  if failures.length > MAX_TOOL_FAILURES then
    lines ++ ["- ...and " ++ toString (failures.length - MAX_TOOL_FAILURES) ++ " more"]
  else lines

/-- `formatToolFailuresSection`: empty for no failures, otherwise a header
followed by the rendered lines. -/
def formatToolFailuresSection (failures : List ToolFailure) : String :=
  if failures.length = 0 then ""
  else "\n\n## Tool Failures\n" ++ String.intercalate "\n" (toolFailureLines failures)

-- =============================================================================
-- File lists (source lines 521-541)
-- =============================================================================

/-- The `FileOperations` record supplied by the caller. -/
structure FileOperations where
  read : List String
  edited : List String
  written : List String
deriving DecidableEq

/-- Keeps the first occurrence of each element not already in `seen`,
dropping later duplicates; models insertion into a JavaScript `Set`. -/
def dedupKeepFirstAux (seen : List String) : List String → List String
  | [] => []
  | x :: xs =>
      if x ∈ seen then dedupKeepFirstAux seen xs
      else x :: dedupKeepFirstAux (x :: seen) xs

/-- Keeps the first occurrence of each element, dropping later duplicates;
this is the membership list of a JavaScript `Set` built by insertion. -/
def dedupKeepFirst (l : List String) : List String := dedupKeepFirstAux [] l

structure FileLists where
  readFiles : List String
  modifiedFiles : List String
deriving DecidableEq

/-- The default JavaScript string sort order: lexicographic comparison of
the character sequences. -/
def strDataLe (a b : String) : Prop := a.data ≤ b.data

instance : DecidableRel strDataLe := fun a b => by
  unfold strDataLe; infer_instance

instance : IsTotal String strDataLe := ⟨fun a b => IsTotal.total a.data b.data⟩

instance : IsTrans String strDataLe := ⟨fun _ _ _ h1 h2 => le_trans h1 h2⟩

/-- `computeFileLists`: the modified set is the deduplicated union of edited
and written files, sorted; the read list is filtered against that set and
sorted. -/
def computeFileLists (fileOps : FileOperations) : FileLists :=
  let modified := dedupKeepFirst (fileOps.edited ++ fileOps.written)
  let readFiles :=
    List.insertionSort strDataLe (fileOps.read.filter (fun f => ¬ f ∈ modified))
  let modifiedFiles := List.insertionSort strDataLe modified
  { readFiles := readFiles, modifiedFiles := modifiedFiles }

/-- `formatFileOperations`: renders the read and modified file sections. -/
def formatFileOperations (readFiles modifiedFiles : List String) : String :=
  let sections : List String :=
    (if readFiles.length > 0 then
      ["<read-files>\n" ++ String.intercalate "\n" readFiles ++ "\n</read-files>"]
     else []) ++
    (if modifiedFiles.length > 0 then
      ["<modified-files>\n" ++ String.intercalate "\n" modifiedFiles ++ "\n</modified-files>"]
     else [])
  if sections.length = 0 then ""
  else "\n\n" ++ String.intercalate "\n\n" sections

-- =============================================================================
-- The compaction cycle handler (source lines 547-726)
-- =============================================================================

/-- Modelled from the spec: the `SAFETY_MARGIN` constant of
`../compaction.js`, which is absent from the analysed sources.  Section 3
fixes it as a sub-unity multiplier and the budget scenario of section 8
(window 10000, share 0.5, budget 4500) pins its value to 0.9. -/
def SAFETY_MARGIN : ℚ := 9 / 10

/-- The argument record of one `summarizeInStages` call. -/
structure StagedRequest where
  messages : List Message
  model : String
  apiKey : String
  reserveTokens : ℤ
  maxChunkTokens : ℤ
  contextWindow : ℚ
  customInstructions : Option String
  previousSummary : Option String

/-- The argument record of one `pruneHistoryForContextShare` call. -/
structure PruneArgs where
  messages : List Message
  maxContextTokens : ℚ
  maxHistoryShare : ℚ
  parts : Nat

/-- The result of `pruneHistoryForContextShare` (a collaborator of the
handler, left abstract in the environment). -/
structure PruneResult where
  messages : List Message
  droppedMessagesList : List Message
  droppedChunks : Nat
  droppedMessages : Nat

/-- Which of the three summarization passes a staged call belongs to (ghost
information recorded in the call trace). -/
inductive StagedKind where
  | droppedPass
  | historyPass
  | prefixPass
deriving DecidableEq

/-- A ghost trace event: each external compaction-core call the handler
makes is recorded in order. -/
inductive CallEvent where
  | pruneCall (args : PruneArgs)
  | stagedCall (kind : StagedKind) (req : StagedRequest)

/-- The per-chunk model invocation capability: given the request context,
the running summary and one chunk, the model returns the new running
summary or fails. -/
def Invoke : Type :=
  StagedRequest → String → List Message → Except Unit String

/-- The chunk-partitioning capability of the staged summarizer (its exact
interpolation is left abstract, as the spec allows). -/
def Chunker : Type :=
  List Message → ℤ → List (List Message)

/-- The sequential fold of the staged summarizer: each chunk is summarized
with the running summary as prior context; any model-call failure aborts
the whole run, discarding the partial accumulator. -/
def stagedFold (invoke : Invoke) (req : StagedRequest) :
    String → List (List Message) → Except Unit String
  | acc, [] => .ok acc
  | acc, c :: cs =>
      match invoke req acc c with
      | .error e => .error e
      | .ok s => stagedFold invoke req s cs

/-- Modelled from the spec: `summarizeInStages` of `../compaction.js`,
which is absent from the analysed sources.  Section 4.5: an empty message
list returns the previous summary unchanged (or the empty string); otherwise
the messages are partitioned into chunks bounded by `maxChunkTokens` and
summarized strictly sequentially, folding the running summary through the
chunks; any model-call failure aborts the whole staged run, so no partial
per-chunk summary is ever returned. -/
def summarizeInStages (invoke : Invoke) (chunk : Chunker)
    (req : StagedRequest) : Except Unit String :=
  if req.messages = [] then .ok (req.previousSummary.getD "")
  else stagedFold invoke req (req.previousSummary.getD "")
    (chunk req.messages req.maxChunkTokens)

/-- The injected capabilities the handler consumes: the context model and
its credential, the runtime configuration, the compaction-core collaborators
and the memories section produced by the (network-backed) memory
collaborator. -/
structure Env where
  model : Option String
  getApiKey : String → Option String
  runtimeMaxHistoryShare : Option ℚ
  resolveContextWindowTokens : String → ℚ
  estimateMessagesTokens : List Message → ℚ
  computeAdaptiveChunkRatio : List Message → ℚ → ℚ
  pruneHistoryForContextShare : PruneArgs → PruneResult
  chunk : Chunker
  invoke : Invoke
  memoriesSection : String

/-- The caller-supplied compaction settings (`preparation.settings`). -/
structure Settings where
  reserveTokens : ℚ

/-- The caller-supplied compaction preparation.  `tokensBefore` is `none`
when the source value is not a finite number. -/
structure Preparation where
  messagesToSummarize : List Message
  turnPrefixMessages : List Message
  firstKeptEntryId : String
  tokensBefore : Option ℚ
  previousSummary : Option String
  isSplitTurn : Bool
  fileOps : FileOperations
  settings : Settings

/-- The `compaction` record the handler returns (the `SummaryArtifact`). -/
structure Compaction where
  summary : String
  firstKeptEntryId : String
  tokensBefore : Option ℚ
  readFiles : List String
  modifiedFiles : List String

/-- The tool-failure section of one cycle: failures are collected over the
summarizable messages followed by the turn-prefix messages (source lines
552-556). -/
def toolFailureSectionOf (prep : Preparation) : String :=
  formatToolFailuresSection
    (collectToolFailures (prep.messagesToSummarize ++ prep.turnPrefixMessages))

/-- The file-operations section of one cycle (source lines 550-551). -/
def fileOpsSummaryOf (prep : Preparation) : String :=
  formatFileOperations (computeFileLists prep.fileOps).readFiles
    (computeFileLists prep.fileOps).modifiedFiles

/-- The fallback summary of one cycle: the fixed fallback text followed by
the auxiliary sections (source line 566). -/
def fallbackSummaryOf (env : Env) (prep : Preparation) : String :=
  FALLBACK_SUMMARY ++ toolFailureSectionOf prep ++ fileOpsSummaryOf prep ++
    env.memoriesSection

/-- The outcome of the pruning block (source lines 600-661): the possibly
pruned message list, the summary of the dropped messages when that
sub-summarization succeeded, and the calls made. -/
structure PruneOutcome where
  messagesToSummarize : List Message
  droppedSummary : Option String
  calls : List CallEvent

/-- The configured maximum history share, `runtime?.maxHistoryShare ?? 0.5`
(source line 598). -/
def maxHistoryShareOf (env : Env) : ℚ := (env.runtimeMaxHistoryShare).getD (1 / 2)

/-- The history budget `maxHistoryTokens` of one cycle (source line 611). -/
def maxHistoryTokensOf (env : Env) (model : String) : ℤ :=
  ⌊env.resolveContextWindowTokens model * maxHistoryShareOf env * SAFETY_MARGIN⌋

/-- The estimated new-content tokens of one cycle (source lines 608-610). -/
def newContentTokensOf (env : Env) (prep : Preparation) (tokensBefore : ℚ) : ℤ :=
  max 0 ⌊tokensBefore - (env.estimateMessagesTokens prep.messagesToSummarize +
    env.estimateMessagesTokens prep.turnPrefixMessages)⌋

/-- The argument record of the pruner call (source lines 614-619). -/
def pruneArgsOf (env : Env) (prep : Preparation) (model : String) : PruneArgs :=
  ⟨prep.messagesToSummarize, env.resolveContextWindowTokens model,
   maxHistoryShareOf env, 2⟩

/-- The staged request used to summarize the dropped messages (source lines
632-650). -/
def droppedReqOf (env : Env) (prep : Preparation) (customInstructions : Option String)
    (model apiKey : String) : StagedRequest :=
  ⟨(env.pruneHistoryForContextShare (pruneArgsOf env prep model)).droppedMessagesList,
   model, apiKey, max 1 ⌊prep.settings.reserveTokens⌋,
   max 1 ⌊env.resolveContextWindowTokens model *
     env.computeAdaptiveChunkRatio
       (env.pruneHistoryForContextShare (pruneArgsOf env prep model)).droppedMessagesList
       (env.resolveContextWindowTokens model)⌋,
   env.resolveContextWindowTokens model, customInstructions, prep.previousSummary⟩

/-- The pruning block of the handler (source lines 600-661): when a finite
pre-compaction token count is available and the estimated new-content
tokens exceed the history budget, the history pruner is invoked; when it
dropped chunks, the dropped messages are summarized separately, a failure
of that sub-summarization being swallowed. -/
def pruneStage (env : Env) (prep : Preparation) (customInstructions : Option String)
    (model apiKey : String) : PruneOutcome :=
  match prep.tokensBefore with
  | none => ⟨prep.messagesToSummarize, none, []⟩
  | some tokensBefore =>
      if newContentTokensOf env prep tokensBefore > maxHistoryTokensOf env model then
        if (env.pruneHistoryForContextShare (pruneArgsOf env prep model)).droppedChunks > 0 then
          if (env.pruneHistoryForContextShare
              (pruneArgsOf env prep model)).droppedMessagesList.length > 0 then
            match summarizeInStages env.invoke env.chunk
                (droppedReqOf env prep customInstructions model apiKey) with
            | .ok s =>
                ⟨(env.pruneHistoryForContextShare (pruneArgsOf env prep model)).messages,
                 some s,
                 [.pruneCall (pruneArgsOf env prep model),
                  .stagedCall .droppedPass (droppedReqOf env prep customInstructions model apiKey)]⟩
            | .error _ =>
                ⟨(env.pruneHistoryForContextShare (pruneArgsOf env prep model)).messages,
                 none,
                 [.pruneCall (pruneArgsOf env prep model),
                  .stagedCall .droppedPass (droppedReqOf env prep customInstructions model apiKey)]⟩
          else ⟨(env.pruneHistoryForContextShare (pruneArgsOf env prep model)).messages,
                none, [.pruneCall (pruneArgsOf env prep model)]⟩
        else ⟨prep.messagesToSummarize, none, [.pruneCall (pruneArgsOf env prep model)]⟩
      else ⟨prep.messagesToSummarize, none, []⟩

/-- The history request of the main summarization block (source lines
663-680). -/
def historyReqOf (env : Env) (prep : Preparation) (customInstructions : Option String)
    (model apiKey : String) (messagesToSummarize : List Message)
    (droppedSummary : Option String) : StagedRequest :=
  let contextWindowTokens := env.resolveContextWindowTokens model
  let allMessages := messagesToSummarize ++ prep.turnPrefixMessages
  let adaptiveRatio := env.computeAdaptiveChunkRatio allMessages contextWindowTokens
  let maxChunkTokens : ℤ := max 1 ⌊contextWindowTokens * adaptiveRatio⌋
  let reserveTokens : ℤ := max 1 ⌊prep.settings.reserveTokens⌋
  let effectivePreviousSummary :=
    match droppedSummary with
    | some s => some s
    | none => prep.previousSummary
  ⟨messagesToSummarize, model, apiKey, reserveTokens, maxChunkTokens,
   contextWindowTokens, customInstructions, effectivePreviousSummary⟩

/-- The turn-prefix request of the split-turn block (source lines 684-694):
exactly the turn-prefix messages, the fixed turn-prefix instructions and no
previous summary. -/
def prefixReqOf (env : Env) (prep : Preparation) (model apiKey : String)
    (messagesToSummarize : List Message) : StagedRequest :=
  let contextWindowTokens := env.resolveContextWindowTokens model
  let allMessages := messagesToSummarize ++ prep.turnPrefixMessages
  let adaptiveRatio := env.computeAdaptiveChunkRatio allMessages contextWindowTokens
  let maxChunkTokens : ℤ := max 1 ⌊contextWindowTokens * adaptiveRatio⌋
  let reserveTokens : ℤ := max 1 ⌊prep.settings.reserveTokens⌋
  ⟨prep.turnPrefixMessages, model, apiKey, reserveTokens, maxChunkTokens,
   contextWindowTokens, some TURN_PREFIX_INSTRUCTIONS, none⟩

/-- The main summarization block (source lines 663-696): the retained
history is summarized with the dropped-content summary (when present)
standing in for the previous summary; on a split turn with a non-empty
prefix a second, independent pass summarizes the turn prefix and the two
summaries are concatenated with the fixed separator. -/
def summarizeStage (env : Env) (prep : Preparation) (customInstructions : Option String)
    (model apiKey : String) (messagesToSummarize : List Message)
    (droppedSummary : Option String) : Except Unit String × List CallEvent :=
  match summarizeInStages env.invoke env.chunk
      (historyReqOf env prep customInstructions model apiKey messagesToSummarize droppedSummary) with
  | .error e =>
      (.error e,
       [.stagedCall .historyPass
          (historyReqOf env prep customInstructions model apiKey messagesToSummarize droppedSummary)])
  | .ok historySummary =>
      if prep.isSplitTurn = true ∧ prep.turnPrefixMessages ≠ [] then
        match summarizeInStages env.invoke env.chunk
            (prefixReqOf env prep model apiKey messagesToSummarize) with
        | .error e =>
            (.error e,
             [.stagedCall .historyPass
                (historyReqOf env prep customInstructions model apiKey messagesToSummarize droppedSummary),
              .stagedCall .prefixPass (prefixReqOf env prep model apiKey messagesToSummarize)])
        | .ok prefixSummary =>
            (.ok (historySummary ++ "\n\n---\n\n**Turn Context (split turn):**\n\n" ++
               prefixSummary),
             [.stagedCall .historyPass
                (historyReqOf env prep customInstructions model apiKey messagesToSummarize droppedSummary),
              .stagedCall .prefixPass (prefixReqOf env prep model apiKey messagesToSummarize)])
      else
        (.ok historySummary,
         [.stagedCall .historyPass
            (historyReqOf env prep customInstructions model apiKey messagesToSummarize droppedSummary)])

/-- The whole `try` block of the handler (source lines 592-700), producing
the summary before the auxiliary sections are appended, or the failure the
handler catches. -/
def tryStage (env : Env) (prep : Preparation) (customInstructions : Option String)
    (model apiKey : String) : Except Unit String × List CallEvent :=
  let p := pruneStage env prep customInstructions model apiKey
  let r := summarizeStage env prep customInstructions model apiKey
    p.messagesToSummarize p.droppedSummary
  (r.1, p.calls ++ r.2)

/-- The `session_before_compact` handler (source lines 548-725), returning
the produced artifact together with the ghost trace of compaction-core
calls.  The handler is a total function: it always returns an artifact. -/
def handleCompact (env : Env) (prep : Preparation)
    (customInstructions : Option String) : Compaction × List CallEvent :=
  let fl := computeFileLists prep.fileOps
  let fallbackSummary := fallbackSummaryOf env prep
  match env.model with
  | none =>
      (⟨fallbackSummary, prep.firstKeptEntryId, prep.tokensBefore,
        fl.readFiles, fl.modifiedFiles⟩, [])
  | some model =>
      match env.getApiKey model with
      | none =>
          (⟨fallbackSummary, prep.firstKeptEntryId, prep.tokensBefore,
            fl.readFiles, fl.modifiedFiles⟩, [])
      | some apiKey =>
          let r := tryStage env prep customInstructions model apiKey
          match r.1 with
          | .ok preSummary =>
              (⟨preSummary ++ toolFailureSectionOf prep ++ fileOpsSummaryOf prep ++
                  env.memoriesSection,
                prep.firstKeptEntryId, prep.tokensBefore,
                fl.readFiles, fl.modifiedFiles⟩, r.2)
          | .error _ =>
              (⟨fallbackSummary, prep.firstKeptEntryId, prep.tokensBefore,
                fl.readFiles, fl.modifiedFiles⟩, r.2)

-- =============================================================================
-- Work-in-progress extraction (source lines 156-365)
-- =============================================================================

/-- One regular-expression match: the whole matched text (`match[0]`) and
the optional first capture group (`match[1]`). -/
structure RegexMatch where
  whole : String
  cap : Option String
deriving DecidableEq

/-- Names for the regular expressions of `extractWorkInProgress`, in source
order: two progress patterns, two pending patterns, four command patterns,
three decision patterns, three error patterns and the four context
patterns (url, password, username, ip). -/
inductive PatternId where
  | progressA | progressB
  | pendingA | pendingB
  | cmdA | cmdB | cmdC | cmdD
  | decA | decB | decC
  | errA | errB | errC
  | ctxUrl | ctxPassword | ctxUsername | ctxIp
deriving DecidableEq

/-- The regex engine, modelled as an oracle: for a pattern and a subject
text it yields the successive matches a global `exec` loop would produce,
in order. -/
def RegexOracle : Type := PatternId → String → List RegexMatch

/-- JavaScript `match[1] || match[0]`: the capture group when it is present
and non-empty, the whole match otherwise. -/
def capOrWhole (m : RegexMatch) : String :=
  match m.cap with
  | some c => if c = "" then m.whole else c
  | none => m.whole

/-- One inner `while`-loop of the extraction: walks the matches of one
pattern, keeping items that are non-empty, longer than `minLen` and not yet
seen (case-insensitively), pushing `transform item` and stopping once the
accumulator holds `maxItems` entries.  Returns the updated seen set and
accumulator. -/
def scanMatches (getItem : RegexMatch → Option String) (minLen maxItems : Nat)
    (transform : String → String) :
    List RegexMatch → List String → List String → List String × List String
  | [], seen, acc => (seen, acc)
  | m :: rest, seen, acc =>
      match getItem m with
      | none => scanMatches getItem minLen maxItems transform rest seen acc
      | some item =>
          if item ≠ "" ∧ minLen < item.length ∧ jsToLower item ∉ seen then
            let seen := jsToLower item :: seen
            let acc := acc ++ [transform item]
            if maxItems ≤ acc.length then (seen, acc)
            else scanMatches getItem minLen maxItems transform rest seen acc
          else scanMatches getItem minLen maxItems transform rest seen acc

/-- Runs one family of patterns over one text (the `for (const pattern of
...)` loops): the seen set and accumulator thread through the patterns. -/
def runPatterns (oracle : RegexOracle) (pats : List PatternId) (text : String)
    (getItem : RegexMatch → Option String) (minLen maxItems : Nat)
    (transform : String → String) (seen acc : List String) :
    List String × List String :=
  pats.foldl (fun st pid =>
    scanMatches getItem minLen maxItems transform (oracle pid text) st.1 st.2)
    (seen, acc)

/-- `match[1]?.trim()`: the trimmed capture group, absent when the group is
absent. -/
def trimmedCap (m : RegexMatch) : Option String :=
  match m.cap with
  | some c => some (jsTrim c)
  | none => none

/-- The context patterns with their keys, in source order. -/
def contextPatternKeys : List (PatternId × String) :=
  [(.ctxUrl, "url"), (.ctxPassword, "password"), (.ctxUsername, "username"), (.ctxIp, "ip")]

/-- One iteration of the context-extraction loop (source lines 329-340) for
one pattern: the first match is taken; the key is stored only once; a
password value longer than four characters is stored as its first four
characters followed by an ellipsis, every other value truncated to fifty
characters. -/
def ctxPatStep (oracle : RegexOracle) (text : String)
    (ctx : List (String × String)) (pk : PatternId × String) :
    List (String × String) :=
  match (oracle pk.1 text).head? with
  | none => ctx
  | some m =>
      if (ctx.lookup pk.2).isNone then
        if pk.2 = "password" ∧ (capOrWhole m).length > 4 then
          ctx ++ [(pk.2, jsTake (capOrWhole m) 4 ++ "...")]
        else ctx ++ [(pk.2, jsTake (capOrWhole m) 50)]
      else ctx

def contextStep (oracle : RegexOracle) (text : String)
    (ctx : List (String × String)) : List (String × String) :=
  contextPatternKeys.foldl (ctxPatStep oracle text) ctx

/-- The mutable extraction state of the message loop of
`extractWorkInProgress`: the accumulated fields and the seen sets, which
persist across messages. -/
structure WipScan where
  progress : List String
  pending : List String
  context : List (String × String)
  commands : List String
  decisions : List String
  errors : List String
  seenProgress : List String
  seenPending : List String
  seenCommands : List String
  seenDecisions : List String
  seenErrors : List String

def WipScan.init : WipScan :=
  ⟨[], [], [], [], [], [], [], [], [], [], []⟩

/-- One iteration of the message loop of `extractWorkInProgress` (source
lines 248-341): non-assistant messages are skipped; otherwise each pattern
family scans the message text, and the context patterns store first
matches.  The pending loop pushes the same items to `pending` and
`next_steps`, so a single list records both. -/
def wipStep (oracle : RegexOracle) (st : WipScan) (m : Message) : WipScan :=
  if m.role ≠ "assistant" then st
  else
    let text := extractMessageText m
    let pr := runPatterns oracle [.progressA, .progressB] text trimmedCap 10 5
      (fun i => jsTake i 100) st.seenProgress st.progress
    let pe := runPatterns oracle [.pendingA, .pendingB] text trimmedCap 10 3
      (fun i => jsTake i 100) st.seenPending st.pending
    let cm := runPatterns oracle [.cmdA, .cmdB, .cmdC, .cmdD] text
      (fun m => some (jsTrim (capOrWhole m))) 5 5
      (fun i => jsTake (jsFirstLine i) 100) st.seenCommands st.commands
    let de := runPatterns oracle [.decA, .decB, .decC] text trimmedCap 10 3
      (fun i => jsTake i 150) st.seenDecisions st.decisions
    let er := runPatterns oracle [.errA, .errB, .errC] text trimmedCap 10 3
      (fun i => jsTake i 100) st.seenErrors st.errors
    let ctx := contextStep oracle text st.context
    ⟨pr.2, pe.2, ctx, cm.2, de.2, er.2, pr.1, pe.1, cm.1, de.1, er.1⟩

/-- The `WorkInProgress` record of the source. -/
structure WorkInProgress where
  task : String
  progress : List String
  pending : List String
  context : List (String × String)
  files_modified : List String
  commands_run : List String
  decisions : List String
  next_steps : List String
  error_states : List String

/-- The task search of `extractWorkInProgress` (source lines 190-201): the
last user message whose text is longer than twenty characters, truncated to
two hundred characters; the empty string when there is none. -/
def findTask (messages : List Message) : String :=
  match messages.reverse.find? (fun m =>
      m.role = "user" ∧ 20 < (extractMessageText m).length) with
  | some m => jsTake (extractMessageText m) 200
  | none => ""

/-- `extractWorkInProgress` (source lines 172-365): finds the task, scans
every assistant message with the pattern families, appends the modified
files supplied by the caller, and returns the record only when it has any
content. -/
def extractWorkInProgress (oracle : RegexOracle) (messages : List Message)
    (fileOps : FileLists) : Option WorkInProgress :=
  let task := findTask messages
  if task = "" then none
  else
    let st := messages.foldl (wipStep oracle) WipScan.init
    let files_modified :=
      if fileOps.modifiedFiles.length > 0 then fileOps.modifiedFiles.take 10 else []
    let progress :=
      if fileOps.modifiedFiles.length > 0 then
        st.progress ++
          ["Modified: " ++ String.intercalate ", " (fileOps.modifiedFiles.take 3)]
      else st.progress
    let hasContent :=
      progress.length > 0 ∨ st.pending.length > 0 ∨ st.context.length > 0 ∨
      files_modified.length > 0 ∨ st.commands.length > 0 ∨ st.decisions.length > 0 ∨
      st.pending.length > 0 ∨ st.errors.length > 0
    if hasContent then
      some ⟨task, progress, st.pending, st.context, files_modified, st.commands,
        st.decisions, st.pending, st.errors⟩
    else none

-- =============================================================================
-- Helper lemmas and concrete fixtures
-- =============================================================================

/-- A plain assistant message used in concrete evaluations. -/
def msgA : Message := ⟨"assistant", .str "sample text", "", "", false, none⟩

/-- A base environment: no model, every collaborator trivial. -/
def env0 : Env :=
  { model := none
    getApiKey := fun _ => none
    runtimeMaxHistoryShare := none
    resolveContextWindowTokens := fun _ => 10000
    estimateMessagesTokens := fun _ => 0
    computeAdaptiveChunkRatio := fun _ _ => 0
    pruneHistoryForContextShare := fun a => ⟨a.messages, [], 0, 0⟩
    chunk := fun ms _ => [ms]
    invoke := fun _ _ _ => .error ()
    memoriesSection := "" }

/-- An environment with a model and credential whose every model call
fails. -/
def env1 : Env := { env0 with model := some "m", getApiKey := fun _ => some "k" }

/-- A minimal preparation with one summarizable message. -/
def prep0 : Preparation :=
  { messagesToSummarize := [msgA]
    turnPrefixMessages := []
    firstKeptEntryId := "entry-1"
    tokensBefore := none
    previousSummary := none
    isSplitTurn := false
    fileOps := ⟨[], [], []⟩
    settings := ⟨0⟩ }

/-- A preparation whose caller-supplied read list is not sorted. -/
def prepFiles : Preparation :=
  { prep0 with fileOps := ⟨["b", "a"], [], []⟩ }

/-- A staged request with a non-empty message list, used to evaluate the
staged summarizer concretely. -/
def reqA : StagedRequest :=
  ⟨[msgA], "m", "k", 1, 1, 10000, none, none⟩

/-- A per-chunk invocation that succeeds on the first chunk and fails on
every later one. -/
def invokeFailSecond : Invoke := fun _ acc _ =>
  if acc = "" then .ok "first chunk summary" else .error ()

/-- A chunker that always produces three chunks. -/
def chunkThree : Chunker := fun ms _ => [ms, ms, ms]

/-- A preparation whose pre-compaction token count exceeds the history
budget of a 10000-token window. -/
def prepTokens : Preparation := { prep0 with tokensBefore := some 7000 }

/-- The `toolCallId` values of the error tool results with a non-empty id,
in message order (with duplicates). -/
def eligibleFailureIds (messages : List Message) : List String :=
  (messages.filter (fun m =>
    m.role = "toolResult" ∧ m.isError = true ∧ m.toolCallId ≠ "")).map (·.toolCallId)

/-- A tool-result error message with the given call id. -/
def failMsg (id : String) : Message := ⟨"toolResult", .empty, id, "tool", true, none⟩

/-- Nine distinct failed tool results. -/
def msgs9 : List Message :=
  [failMsg "t1", failMsg "t2", failMsg "t3", failMsg "t4", failMsg "t5",
   failMsg "t6", failMsg "t7", failMsg "t8", failMsg "t9"]

/-- Concrete file operations with an overlap between read and edited. -/
def fileOpsW : FileOperations := ⟨["b", "a", "c"], ["c"], ["d"]⟩

/-- A regex oracle that matches the password pattern once. -/
def oracleW : RegexOracle := fun pid _ =>
  match pid with
  | .ctxPassword => [⟨"password: hunter2secret", some "hunter2secret"⟩]
  | _ => []

def userMsgW : Message :=
  ⟨"user", .str "please deploy the new service today", "", "", false, none⟩

def asstMsgW : Message := ⟨"assistant", .str "done", "", "", false, none⟩

def msgsW : List Message := [userMsgW, asstMsgW]

/-- The work-in-progress record extracted from `msgsW` under `oracleW`. -/
def wipW : WorkInProgress :=
  ⟨"please deploy the new service today", [], [], [("password", "hunt...")],
   [], [], [], [], []⟩

theorem handleCompact_model_none {env : Env} (prep : Preparation) (ci : Option String)
    (h1 : env.model = none) :
    handleCompact env prep ci =
      (⟨fallbackSummaryOf env prep, prep.firstKeptEntryId, prep.tokensBefore,
        (computeFileLists prep.fileOps).readFiles,
        (computeFileLists prep.fileOps).modifiedFiles⟩, []) := by
  unfold handleCompact
  rw [h1]

theorem handleCompact_key_none {env : Env} (prep : Preparation) (ci : Option String)
    {m : String} (h1 : env.model = some m) (h2 : env.getApiKey m = none) :
    handleCompact env prep ci =
      (⟨fallbackSummaryOf env prep, prep.firstKeptEntryId, prep.tokensBefore,
        (computeFileLists prep.fileOps).readFiles,
        (computeFileLists prep.fileOps).modifiedFiles⟩, []) := by
  unfold handleCompact
  rw [h1]
  simp only [h2]

theorem handleCompact_some {env : Env} (prep : Preparation) (ci : Option String)
    {m k : String} (h1 : env.model = some m) (h2 : env.getApiKey m = some k) :
    handleCompact env prep ci =
      (match (tryStage env prep ci m k).1 with
       | .ok preSummary =>
           ⟨preSummary ++ toolFailureSectionOf prep ++ fileOpsSummaryOf prep ++
              env.memoriesSection,
            prep.firstKeptEntryId, prep.tokensBefore,
            (computeFileLists prep.fileOps).readFiles,
            (computeFileLists prep.fileOps).modifiedFiles⟩
       | .error _ =>
           ⟨fallbackSummaryOf env prep, prep.firstKeptEntryId, prep.tokensBefore,
            (computeFileLists prep.fileOps).readFiles,
            (computeFileLists prep.fileOps).modifiedFiles⟩,
       (tryStage env prep ci m k).2) := by
  unfold handleCompact
  rw [h1]
  simp only [h2]
  cases (tryStage env prep ci m k).1 <;> rfl

-- =============================================================================
-- C7: fixed order of the auxiliary sections
-- =============================================================================

/-- Claim C7: in every returned artifact, success path or fallback path,
the summary is some base text followed by the auxiliary sections in the
fixed order tool failures, then file operations, then retrieved
memories. -/
theorem aux_sections_fixed_order (env : Env) (prep : Preparation) (ci : Option String) :
    ∃ base, (handleCompact env prep ci).1.summary =
      base ++ toolFailureSectionOf prep ++ fileOpsSummaryOf prep ++ env.memoriesSection := by
  cases h1 : env.model with
  | none =>
      exact ⟨FALLBACK_SUMMARY, by rw [handleCompact_model_none prep ci h1]; rfl⟩
  | some m =>
      cases h2 : env.getApiKey m with
      | none =>
          exact ⟨FALLBACK_SUMMARY, by rw [handleCompact_key_none prep ci h1 h2]; rfl⟩
      | some k =>
          rw [handleCompact_some prep ci h1 h2]
          cases (tryStage env prep ci m k).1 with
          | ok s => exact ⟨s, rfl⟩
          | error e => exact ⟨FALLBACK_SUMMARY, rfl⟩

-- =============================================================================
-- C6: passthrough fields (corrected)
-- =============================================================================

/-- Claim C6, counterexample: the artifact field `readFiles` is not the
caller-supplied read list passed through unchanged — the handler sorts
(and filters) it, so for the caller list `["b", "a"]` the artifact carries
`["a", "b"]`. -/
theorem readFiles_not_passthrough_counterexample :
    ¬ ((handleCompact env0 prepFiles none).1.readFiles = prepFiles.fileOps.read) := by
  decide

/-- Claim C6 as amended: in every returned artifact, `firstKeptEntryId` and
`tokensBefore` are the caller-supplied preparation values unchanged, and
`details.readFiles` / `details.modifiedFiles` are the lists computed once by
`computeFileLists` from the caller-supplied file operations (deduplicated
and sorted, the read list filtered against the modified set), identical on
every return path. -/
theorem artifact_passthrough_fields (env : Env) (prep : Preparation) (ci : Option String) :
    (handleCompact env prep ci).1.firstKeptEntryId = prep.firstKeptEntryId ∧
    (handleCompact env prep ci).1.tokensBefore = prep.tokensBefore ∧
    (handleCompact env prep ci).1.readFiles = (computeFileLists prep.fileOps).readFiles ∧
    (handleCompact env prep ci).1.modifiedFiles =
      (computeFileLists prep.fileOps).modifiedFiles := by
  cases h1 : env.model with
  | none => rw [handleCompact_model_none prep ci h1]; exact ⟨rfl, rfl, rfl, rfl⟩
  | some m =>
      cases h2 : env.getApiKey m with
      | none => rw [handleCompact_key_none prep ci h1 h2]; exact ⟨rfl, rfl, rfl, rfl⟩
      | some k =>
          rw [handleCompact_some prep ci h1 h2]
          cases (tryStage env prep ci m k).1 with
          | ok s => exact ⟨rfl, rfl, rfl, rfl⟩
          | error e => exact ⟨rfl, rfl, rfl, rfl⟩

-- =============================================================================
-- C5: missing model or credential skips summarization
-- =============================================================================

/-- Claim C5: when no model is available or the credential resolver returns
no API key, the cycle performs no compaction-core calls at all (in
particular no summarization model calls) and returns the fallback text with
the auxiliary sections appended. -/
theorem no_credential_fallback (env : Env) (prep : Preparation) (ci : Option String)
    (h : env.model = none ∨ ∃ m, env.model = some m ∧ env.getApiKey m = none) :
    (handleCompact env prep ci).2 = [] ∧
    (handleCompact env prep ci).1.summary =
      FALLBACK_SUMMARY ++ toolFailureSectionOf prep ++ fileOpsSummaryOf prep ++
        env.memoriesSection := by
  rcases h with h1 | ⟨m, h1, h2⟩
  · rw [handleCompact_model_none prep ci h1]; exact ⟨rfl, rfl⟩
  · rw [handleCompact_key_none prep ci h1 h2]; exact ⟨rfl, rfl⟩

/-- Witness for C5 at a concrete input (no model configured). -/
theorem no_credential_fallback_witness :
    (handleCompact env0 prep0 none).2 = [] ∧
    (handleCompact env0 prep0 none).1.summary =
      FALLBACK_SUMMARY ++ toolFailureSectionOf prep0 ++ fileOpsSummaryOf prep0 ++
        env0.memoriesSection :=
  no_credential_fallback env0 prep0 none (Or.inl rfl)

-- =============================================================================
-- C1: the cycle always yields an artifact; failures yield the fixed fallback
-- =============================================================================

/-- Claim C1: the handler is a total function (it always returns an
artifact), and whenever the history/prefix summarization path fails, the
returned summary is exactly the fixed fallback text followed by the
auxiliary sections; moreover the staged summarizer never yields a partial
per-chunk summary — a model-call failure mid-way through a staged run (for
example on the second of three chunks) fails the whole run. -/
theorem cycle_fallback_on_failure :
    (∀ (env : Env) (prep : Preparation) (ci : Option String) (m k : String),
      env.model = some m → env.getApiKey m = some k →
      (tryStage env prep ci m k).1 = .error () →
      (handleCompact env prep ci).1.summary =
        FALLBACK_SUMMARY ++ toolFailureSectionOf prep ++ fileOpsSummaryOf prep ++
          env.memoriesSection) ∧
    (∀ (invoke : Invoke) (chunkf : Chunker) (req : StagedRequest)
      (c1 c2 c3 : List Message) (s1 : String),
      req.messages ≠ [] →
      chunkf req.messages req.maxChunkTokens = [c1, c2, c3] →
      invoke req (req.previousSummary.getD "") c1 = .ok s1 →
      invoke req s1 c2 = .error () →
      summarizeInStages invoke chunkf req = .error ()) := by
  constructor
  · intro env prep ci m k h1 h2 herr
    rw [handleCompact_some prep ci h1 h2, herr]
    rfl
  · intro invoke chunkf req c1 c2 c3 s1 hne hchunk hc1 hc2
    unfold summarizeInStages
    rw [if_neg hne, hchunk]
    unfold stagedFold
    rw [hc1]
    unfold stagedFold
    rw [hc2]

/-- Witness for C1: with every model call failing, a cycle with one
summarizable message falls back to the fixed fallback text plus sections,
and a staged run over three chunks whose second model call fails returns
the failure, not a partial summary. -/
theorem cycle_fallback_on_failure_witness :
    (handleCompact env1 prep0 none).1.summary =
      FALLBACK_SUMMARY ++ toolFailureSectionOf prep0 ++ fileOpsSummaryOf prep0 ++
        env1.memoriesSection ∧
    summarizeInStages invokeFailSecond chunkThree reqA = .error () :=
  ⟨cycle_fallback_on_failure.1 env1 prep0 none "m" "k" rfl rfl rfl,
   cycle_fallback_on_failure.2 invokeFailSecond chunkThree reqA [msgA] [msgA] [msgA]
     "first chunk summary" (by decide) rfl rfl rfl⟩

-- =============================================================================
-- C2: pruning is invoked exactly when the budget condition holds
-- =============================================================================

theorem summarizeStage_calls_shape (env : Env) (prep : Preparation) (ci : Option String)
    (m k : String) (msgs : List Message) (ds : Option String) :
    ∃ t2, (summarizeStage env prep ci m k msgs ds).2 =
      .stagedCall .historyPass (historyReqOf env prep ci m k msgs ds) :: t2 ∧
      ∀ e ∈ t2, ∃ r, e = CallEvent.stagedCall .prefixPass r := by
  unfold summarizeStage
  rcases h : summarizeInStages env.invoke env.chunk (historyReqOf env prep ci m k msgs ds) with e | s
  · exact ⟨[], rfl, by intro e h; simp at h⟩
  · by_cases hsplit : prep.isSplitTurn = true ∧ prep.turnPrefixMessages ≠ []
    · simp only [if_pos hsplit]
      rcases h2 : summarizeInStages env.invoke env.chunk (prefixReqOf env prep m k msgs) with e | ps
      · exact ⟨[.stagedCall .prefixPass (prefixReqOf env prep m k msgs)], rfl,
          by intro e h; simp at h; exact ⟨_, h⟩⟩
      · exact ⟨[.stagedCall .prefixPass (prefixReqOf env prep m k msgs)], rfl,
          by intro e h; simp at h; exact ⟨_, h⟩⟩
    · simp only [if_neg hsplit]
      exact ⟨[], rfl, by intro e h; simp at h⟩

theorem pruneStage_calls_shape (env : Env) (prep : Preparation) (ci : Option String)
    (m k : String) :
    ∀ e ∈ (pruneStage env prep ci m k).calls,
      (∃ a, e = CallEvent.pruneCall a) ∨ ∃ r, e = CallEvent.stagedCall .droppedPass r := by
  intro e he
  unfold pruneStage at he
  split at he
  · simp at he
  · split at he
    · split at he
      · split at he
        · split at he
          · simp at he
            rcases he with h | h
            · exact Or.inl ⟨_, h⟩
            · exact Or.inr ⟨_, h⟩
          · simp at he
            rcases he with h | h
            · exact Or.inl ⟨_, h⟩
            · exact Or.inr ⟨_, h⟩
        · simp at he
          exact Or.inl ⟨_, he⟩
      · simp at he
        exact Or.inl ⟨_, he⟩
    · simp at he

theorem pruneStage_pruneCall_iff (env : Env) (prep : Preparation) (ci : Option String)
    (m k : String) :
    (∃ args, CallEvent.pruneCall args ∈ (pruneStage env prep ci m k).calls) ↔
      (∃ tb, prep.tokensBefore = some tb ∧
        maxHistoryTokensOf env m < newContentTokensOf env prep tb) := by
  unfold pruneStage
  constructor
  · rintro ⟨args, h⟩
    split at h
    · simp at h
    · rename_i tb heq
      split at h
      · rename_i hgt
        exact ⟨tb, heq, by simpa [gt_iff_lt] using hgt⟩
      · simp at h
  · rintro ⟨tb, htb, hlt⟩
    simp only [htb]
    have hgt : newContentTokensOf env prep tb > maxHistoryTokensOf env m := by
      simpa [gt_iff_lt] using hlt
    rw [if_pos hgt]
    split
    · split
      · split
        · exact ⟨pruneArgsOf env prep m, by simp⟩
        · exact ⟨pruneArgsOf env prep m, by simp⟩
      · exact ⟨pruneArgsOf env prep m, by simp⟩
    · exact ⟨pruneArgsOf env prep m, by simp⟩

theorem handleCompact_trace {env : Env} (prep : Preparation) (ci : Option String)
    {m k : String} (h1 : env.model = some m) (h2 : env.getApiKey m = some k) :
    (handleCompact env prep ci).2 =
      (pruneStage env prep ci m k).calls ++
        (summarizeStage env prep ci m k (pruneStage env prep ci m k).messagesToSummarize
          (pruneStage env prep ci m k).droppedSummary).2 := by
  rw [handleCompact_some prep ci h1 h2]
  rfl

/-- Claim C2: with a model and credential available, the handler invokes
history pruning exactly when a finite pre-compaction token count is
available and the estimated new-content tokens (the clamped floor of
`tokensBefore` minus the estimated tokens of the summarizable and
turn-prefix messages) exceed the history budget
`floor(contextWindowTokens * maxHistoryShare * SAFETY_MARGIN)`; for a
context window of 10000 tokens and history share 0.5 that budget is
4500. -/
theorem prune_invoked_iff (env : Env) (prep : Preparation) (ci : Option String)
    (m k : String) (h1 : env.model = some m) (h2 : env.getApiKey m = some k) :
    ((∃ args, CallEvent.pruneCall args ∈ (handleCompact env prep ci).2) ↔
      (∃ tb, prep.tokensBefore = some tb ∧
        ⌊env.resolveContextWindowTokens m *
            ((env.runtimeMaxHistoryShare).getD (1 / 2)) * SAFETY_MARGIN⌋ <
          max 0 ⌊tb - (env.estimateMessagesTokens prep.messagesToSummarize +
            env.estimateMessagesTokens prep.turnPrefixMessages)⌋)) ∧
    ⌊(10000 : ℚ) * (1 / 2) * SAFETY_MARGIN⌋ = 4500 := by
  constructor
  · rw [handleCompact_trace prep ci h1 h2]
    constructor
    · rintro ⟨args, hmem⟩
      rw [List.mem_append] at hmem
      rcases hmem with h | h
      · exact (pruneStage_pruneCall_iff env prep ci m k).1 ⟨args, h⟩
      · obtain ⟨t2, ht2, hall⟩ := summarizeStage_calls_shape env prep ci m k
          (pruneStage env prep ci m k).messagesToSummarize
          (pruneStage env prep ci m k).droppedSummary
        rw [ht2] at h
        rcases List.mem_cons.mp h with h' | h'
        · simp at h'
        · obtain ⟨r, hr⟩ := hall _ h'
          simp at hr
    · intro hcond
      obtain ⟨args, h⟩ := (pruneStage_pruneCall_iff env prep ci m k).2 hcond
      exact ⟨args, List.mem_append.2 (Or.inl h)⟩
  · norm_num [SAFETY_MARGIN]

/-- Witness for C2 at a concrete input: window 10000, share 0.5, estimated
new content 7000 tokens, so the budget 4500 is exceeded. -/
theorem prune_invoked_iff_witness :
    ((∃ args, CallEvent.pruneCall args ∈ (handleCompact env1 prepTokens none).2) ↔
      (∃ tb, prepTokens.tokensBefore = some tb ∧
        ⌊env1.resolveContextWindowTokens "m" *
            ((env1.runtimeMaxHistoryShare).getD (1 / 2)) * SAFETY_MARGIN⌋ <
          max 0 ⌊tb - (env1.estimateMessagesTokens prepTokens.messagesToSummarize +
            env1.estimateMessagesTokens prepTokens.turnPrefixMessages)⌋)) ∧
    ⌊(10000 : ℚ) * (1 / 2) * SAFETY_MARGIN⌋ = 4500 :=
  prune_invoked_iff env1 prepTokens none "m" "k" rfl rfl

-- =============================================================================
-- C3: dropped-content summarization order, feeding and failure swallowing
-- =============================================================================

theorem pruneStage_spec (env : Env) (prep : Preparation) (ci : Option String)
    (m k : String) :
    pruneStage env prep ci m k = ⟨prep.messagesToSummarize, none, []⟩ ∨
    pruneStage env prep ci m k =
      ⟨prep.messagesToSummarize, none, [.pruneCall (pruneArgsOf env prep m)]⟩ ∨
    pruneStage env prep ci m k =
      ⟨(env.pruneHistoryForContextShare (pruneArgsOf env prep m)).messages, none,
       [.pruneCall (pruneArgsOf env prep m)]⟩ ∨
    (∃ s, summarizeInStages env.invoke env.chunk (droppedReqOf env prep ci m k) = .ok s ∧
      pruneStage env prep ci m k =
        ⟨(env.pruneHistoryForContextShare (pruneArgsOf env prep m)).messages, some s,
         [.pruneCall (pruneArgsOf env prep m),
          .stagedCall .droppedPass (droppedReqOf env prep ci m k)]⟩) ∨
    (summarizeInStages env.invoke env.chunk (droppedReqOf env prep ci m k) = .error () ∧
      pruneStage env prep ci m k =
        ⟨(env.pruneHistoryForContextShare (pruneArgsOf env prep m)).messages, none,
         [.pruneCall (pruneArgsOf env prep m),
          .stagedCall .droppedPass (droppedReqOf env prep ci m k)]⟩) := by
  unfold pruneStage
  split
  · exact Or.inl rfl
  · split
    · split
      · split
        · split
          · rename_i s heq
            exact Or.inr (Or.inr (Or.inr (Or.inl ⟨s, heq, rfl⟩)))
          · rename_i e heq
            exact Or.inr (Or.inr (Or.inr (Or.inr ⟨heq, rfl⟩)))
        · exact Or.inr (Or.inr (Or.inl rfl))
      · exact Or.inr (Or.inl rfl)
    · exact Or.inl rfl

/-- Claim C3: the dropped messages are summarized before the retained
history (every dropped-pass call precedes the history-pass call in the
trace, and the prefix pass comes after); a successful dropped-content
summary replaces the caller's previous summary as the prior context of the
history pass, and when there is none the caller's previous summary is used;
a failed dropped-content summarization is swallowed — it leaves no dropped
summary, and the cycle's only failure sources are the history and prefix
passes. -/
theorem dropped_summarized_before_history (env : Env) (prep : Preparation)
    (ci : Option String) (m k : String)
    (h1 : env.model = some m) (h2 : env.getApiKey m = some k) :
    (∃ t2, (handleCompact env prep ci).2 =
        (pruneStage env prep ci m k).calls ++
          (CallEvent.stagedCall .historyPass
            (historyReqOf env prep ci m k (pruneStage env prep ci m k).messagesToSummarize
              (pruneStage env prep ci m k).droppedSummary) :: t2) ∧
      (∀ e ∈ (pruneStage env prep ci m k).calls,
        (∃ a, e = CallEvent.pruneCall a) ∨ ∃ r, e = CallEvent.stagedCall .droppedPass r) ∧
      (∀ e ∈ t2, ∃ r, e = CallEvent.stagedCall .prefixPass r)) ∧
    (∀ s, (pruneStage env prep ci m k).droppedSummary = some s →
      (historyReqOf env prep ci m k (pruneStage env prep ci m k).messagesToSummarize
        (pruneStage env prep ci m k).droppedSummary).previousSummary = some s) ∧
    ((pruneStage env prep ci m k).droppedSummary = none →
      (historyReqOf env prep ci m k (pruneStage env prep ci m k).messagesToSummarize
        (pruneStage env prep ci m k).droppedSummary).previousSummary =
          prep.previousSummary) ∧
    (∀ req, CallEvent.stagedCall .droppedPass req ∈ (pruneStage env prep ci m k).calls →
      summarizeInStages env.invoke env.chunk req = .error () →
      (pruneStage env prep ci m k).droppedSummary = none) ∧
    (tryStage env prep ci m k).1 =
      (summarizeStage env prep ci m k (pruneStage env prep ci m k).messagesToSummarize
        (pruneStage env prep ci m k).droppedSummary).1 := by
  refine ⟨?_, ?_, ?_, ?_, rfl⟩
  · rw [handleCompact_trace prep ci h1 h2]
    obtain ⟨t2, ht2, hall⟩ := summarizeStage_calls_shape env prep ci m k
      (pruneStage env prep ci m k).messagesToSummarize
      (pruneStage env prep ci m k).droppedSummary
    exact ⟨t2, by rw [ht2], pruneStage_calls_shape env prep ci m k, hall⟩
  · intro s hs
    rw [hs]
    rfl
  · intro h0
    rw [h0]
    rfl
  · intro req hmem herr
    rcases pruneStage_spec env prep ci m k with hp | hp | hp | ⟨s, heq, hp⟩ | ⟨heq, hp⟩ <;>
      rw [hp] at hmem ⊢ <;> simp at hmem ⊢
    · rw [hmem] at herr
      rw [heq] at herr
      simp at herr

/-- Witness for C3 at a concrete input. -/
theorem dropped_summarized_before_history_witness :
    (∃ t2, (handleCompact env1 prep0 none).2 =
        (pruneStage env1 prep0 none "m" "k").calls ++
          (CallEvent.stagedCall .historyPass
            (historyReqOf env1 prep0 none "m" "k"
              (pruneStage env1 prep0 none "m" "k").messagesToSummarize
              (pruneStage env1 prep0 none "m" "k").droppedSummary) :: t2) ∧
      (∀ e ∈ (pruneStage env1 prep0 none "m" "k").calls,
        (∃ a, e = CallEvent.pruneCall a) ∨ ∃ r, e = CallEvent.stagedCall .droppedPass r) ∧
      (∀ e ∈ t2, ∃ r, e = CallEvent.stagedCall .prefixPass r)) ∧
    (∀ s, (pruneStage env1 prep0 none "m" "k").droppedSummary = some s →
      (historyReqOf env1 prep0 none "m" "k"
        (pruneStage env1 prep0 none "m" "k").messagesToSummarize
        (pruneStage env1 prep0 none "m" "k").droppedSummary).previousSummary = some s) ∧
    ((pruneStage env1 prep0 none "m" "k").droppedSummary = none →
      (historyReqOf env1 prep0 none "m" "k"
        (pruneStage env1 prep0 none "m" "k").messagesToSummarize
        (pruneStage env1 prep0 none "m" "k").droppedSummary).previousSummary =
          prep0.previousSummary) ∧
    (∀ req, CallEvent.stagedCall .droppedPass req ∈ (pruneStage env1 prep0 none "m" "k").calls →
      summarizeInStages env1.invoke env1.chunk req = .error () →
      (pruneStage env1 prep0 none "m" "k").droppedSummary = none) ∧
    (tryStage env1 prep0 none "m" "k").1 =
      (summarizeStage env1 prep0 none "m" "k"
        (pruneStage env1 prep0 none "m" "k").messagesToSummarize
        (pruneStage env1 prep0 none "m" "k").droppedSummary).1 :=
  dropped_summarized_before_history env1 prep0 none "m" "k" rfl rfl

-- =============================================================================
-- C4: the split-turn prefix pass
-- =============================================================================

/-- Claim C4: the turn-prefix request covers exactly the turn-prefix
messages with the fixed turn-prefix instructions and no previous summary;
after a successful history pass, the prefix pass runs exactly when the
preparation is a split turn with a non-empty prefix, and on its success the
pre-section summary is the history summary, the fixed separator, then the
prefix summary; otherwise no prefix pass runs and the history summary is
used alone. -/
theorem splitturn_second_pass (env : Env) (prep : Preparation) (ci : Option String)
    (m k : String) (h1 : env.model = some m) (h2 : env.getApiKey m = some k) :
    ((prefixReqOf env prep m k
        (pruneStage env prep ci m k).messagesToSummarize).messages =
          prep.turnPrefixMessages ∧
     (prefixReqOf env prep m k
        (pruneStage env prep ci m k).messagesToSummarize).customInstructions =
          some TURN_PREFIX_INSTRUCTIONS ∧
     (prefixReqOf env prep m k
        (pruneStage env prep ci m k).messagesToSummarize).previousSummary = none) ∧
    (∀ h, summarizeInStages env.invoke env.chunk
        (historyReqOf env prep ci m k (pruneStage env prep ci m k).messagesToSummarize
          (pruneStage env prep ci m k).droppedSummary) = .ok h →
      ((prep.isSplitTurn = true ∧ prep.turnPrefixMessages ≠ []) →
        (summarizeStage env prep ci m k (pruneStage env prep ci m k).messagesToSummarize
            (pruneStage env prep ci m k).droppedSummary).2 =
          [CallEvent.stagedCall .historyPass
            (historyReqOf env prep ci m k (pruneStage env prep ci m k).messagesToSummarize
              (pruneStage env prep ci m k).droppedSummary),
           CallEvent.stagedCall .prefixPass
            (prefixReqOf env prep m k (pruneStage env prep ci m k).messagesToSummarize)] ∧
        (∀ ps, summarizeInStages env.invoke env.chunk
            (prefixReqOf env prep m k (pruneStage env prep ci m k).messagesToSummarize) =
              .ok ps →
          (summarizeStage env prep ci m k (pruneStage env prep ci m k).messagesToSummarize
            (pruneStage env prep ci m k).droppedSummary).1 =
            .ok (h ++ "\n\n---\n\n**Turn Context (split turn):**\n\n" ++ ps))) ∧
      (¬(prep.isSplitTurn = true ∧ prep.turnPrefixMessages ≠ []) →
        (summarizeStage env prep ci m k (pruneStage env prep ci m k).messagesToSummarize
            (pruneStage env prep ci m k).droppedSummary).2 =
          [CallEvent.stagedCall .historyPass
            (historyReqOf env prep ci m k (pruneStage env prep ci m k).messagesToSummarize
              (pruneStage env prep ci m k).droppedSummary)] ∧
        (summarizeStage env prep ci m k (pruneStage env prep ci m k).messagesToSummarize
          (pruneStage env prep ci m k).droppedSummary).1 = .ok h)) := by
  refine ⟨⟨rfl, rfl, rfl⟩, ?_⟩
  intro h hok
  constructor
  · intro hsplit
    simp only [summarizeStage, hok, if_pos hsplit]
    cases hpre : summarizeInStages env.invoke env.chunk
        (prefixReqOf env prep m k (pruneStage env prep ci m k).messagesToSummarize) with
    | error e =>
        exact ⟨rfl, fun ps hps => absurd hps (by simp)⟩
    | ok ps0 =>
        refine ⟨rfl, fun ps hps => ?_⟩
        rw [Except.ok.inj hps]
  · intro hsplit
    simp only [summarizeStage, hok, if_neg hsplit]
    refine ⟨?_, ?_⟩ <;> (first | rfl | trivial)

/-- Witness for C4 at a concrete input. -/
theorem splitturn_second_pass_witness :
    ((prefixReqOf env1 prep0 "m" "k"
        (pruneStage env1 prep0 none "m" "k").messagesToSummarize).messages =
          prep0.turnPrefixMessages ∧
     (prefixReqOf env1 prep0 "m" "k"
        (pruneStage env1 prep0 none "m" "k").messagesToSummarize).customInstructions =
          some TURN_PREFIX_INSTRUCTIONS ∧
     (prefixReqOf env1 prep0 "m" "k"
        (pruneStage env1 prep0 none "m" "k").messagesToSummarize).previousSummary = none) ∧
    (∀ h, summarizeInStages env1.invoke env1.chunk
        (historyReqOf env1 prep0 none "m" "k"
          (pruneStage env1 prep0 none "m" "k").messagesToSummarize
          (pruneStage env1 prep0 none "m" "k").droppedSummary) = .ok h →
      ((prep0.isSplitTurn = true ∧ prep0.turnPrefixMessages ≠ []) →
        (summarizeStage env1 prep0 none "m" "k"
            (pruneStage env1 prep0 none "m" "k").messagesToSummarize
            (pruneStage env1 prep0 none "m" "k").droppedSummary).2 =
          [CallEvent.stagedCall .historyPass
            (historyReqOf env1 prep0 none "m" "k"
              (pruneStage env1 prep0 none "m" "k").messagesToSummarize
              (pruneStage env1 prep0 none "m" "k").droppedSummary),
           CallEvent.stagedCall .prefixPass
            (prefixReqOf env1 prep0 "m" "k"
              (pruneStage env1 prep0 none "m" "k").messagesToSummarize)] ∧
        (∀ ps, summarizeInStages env1.invoke env1.chunk
            (prefixReqOf env1 prep0 "m" "k"
              (pruneStage env1 prep0 none "m" "k").messagesToSummarize) = .ok ps →
          (summarizeStage env1 prep0 none "m" "k"
            (pruneStage env1 prep0 none "m" "k").messagesToSummarize
            (pruneStage env1 prep0 none "m" "k").droppedSummary).1 =
            .ok (h ++ "\n\n---\n\n**Turn Context (split turn):**\n\n" ++ ps))) ∧
      (¬(prep0.isSplitTurn = true ∧ prep0.turnPrefixMessages ≠ []) →
        (summarizeStage env1 prep0 none "m" "k"
            (pruneStage env1 prep0 none "m" "k").messagesToSummarize
            (pruneStage env1 prep0 none "m" "k").droppedSummary).2 =
          [CallEvent.stagedCall .historyPass
            (historyReqOf env1 prep0 none "m" "k"
              (pruneStage env1 prep0 none "m" "k").messagesToSummarize
              (pruneStage env1 prep0 none "m" "k").droppedSummary)] ∧
        (summarizeStage env1 prep0 none "m" "k"
          (pruneStage env1 prep0 none "m" "k").messagesToSummarize
          (pruneStage env1 prep0 none "m" "k").droppedSummary).1 = .ok h)) :=
  splitturn_second_pass env1 prep0 none "m" "k" rfl rfl

-- =============================================================================
-- C8: computeFileLists produces sorted, deduplicated, disjoint lists
-- =============================================================================

theorem mem_dedupKeepFirstAux (y : String) :
    ∀ (l seen : List String), y ∈ dedupKeepFirstAux seen l ↔ y ∈ l ∧ y ∉ seen := by
  intro l
  induction l with
  | nil => intro seen; simp [dedupKeepFirstAux]
  | cons x xs ih =>
      intro seen
      by_cases hx : x ∈ seen
      · rw [dedupKeepFirstAux, if_pos hx, ih]
        constructor
        · rintro ⟨h1, h2⟩
          exact ⟨List.mem_cons_of_mem x h1, h2⟩
        · rintro ⟨h1, h2⟩
          rcases List.mem_cons.mp h1 with h | h
          · exact absurd (h ▸ hx) h2
          · exact ⟨h, h2⟩
      · rw [dedupKeepFirstAux, if_neg hx]
        simp only [List.mem_cons, ih]
        constructor
        · rintro (h | ⟨h1, h2⟩)
          · exact ⟨Or.inl h, h ▸ hx⟩
          · exact ⟨Or.inr h1, fun hs => h2 (Or.inr hs)⟩
        · rintro ⟨h | h1, h2⟩
          · exact Or.inl h
          · by_cases hyx : y = x
            · exact Or.inl hyx
            · refine Or.inr ⟨h1, fun hs => ?_⟩
              rcases hs with h3 | h3
              · exact hyx h3
              · exact h2 h3

theorem nodup_dedupKeepFirstAux :
    ∀ (l seen : List String), (dedupKeepFirstAux seen l).Nodup := by
  intro l
  induction l with
  | nil => intro seen; simp [dedupKeepFirstAux]
  | cons x xs ih =>
      intro seen
      by_cases hx : x ∈ seen
      · rw [dedupKeepFirstAux, if_pos hx]
        exact ih seen
      · rw [dedupKeepFirstAux, if_neg hx]
        refine List.nodup_cons.mpr ⟨?_, ih (x :: seen)⟩
        intro hmem
        exact ((mem_dedupKeepFirstAux x xs (x :: seen)).mp hmem).2 (List.mem_cons_self x seen)

theorem mem_dedupKeepFirst (y : String) (l : List String) :
    y ∈ dedupKeepFirst l ↔ y ∈ l := by
  unfold dedupKeepFirst
  rw [mem_dedupKeepFirstAux]
  simp

/-- Claim C8: `computeFileLists` returns a modified list that is the
sorted, duplicate-free union of the edited and written lists, and a read
list that is the sorted read files with every modified file filtered out;
consequently the two lists are disjoint. -/
theorem computeFileLists_spec (fileOps : FileOperations) :
    List.Sorted strDataLe (computeFileLists fileOps).modifiedFiles ∧
    (computeFileLists fileOps).modifiedFiles.Nodup ∧
    (∀ f, f ∈ (computeFileLists fileOps).modifiedFiles ↔
      f ∈ fileOps.edited ∨ f ∈ fileOps.written) ∧
    List.Sorted strDataLe (computeFileLists fileOps).readFiles ∧
    (computeFileLists fileOps).readFiles.Perm
      (fileOps.read.filter (fun f => ¬(f ∈ fileOps.edited ∨ f ∈ fileOps.written))) ∧
    (∀ f, f ∈ (computeFileLists fileOps).readFiles →
      f ∉ (computeFileLists fileOps).modifiedFiles) := by
  have hmodmem : ∀ f, f ∈ (computeFileLists fileOps).modifiedFiles ↔
      f ∈ fileOps.edited ∨ f ∈ fileOps.written := by
    intro f
    show f ∈ List.insertionSort strDataLe (dedupKeepFirst _) ↔ _
    rw [(List.perm_insertionSort strDataLe _).mem_iff, mem_dedupKeepFirst,
      List.mem_append]
  have hfiltereq : (fileOps.read.filter
      (fun f => ¬ f ∈ dedupKeepFirst (fileOps.edited ++ fileOps.written))) =
      (fileOps.read.filter (fun f => ¬(f ∈ fileOps.edited ∨ f ∈ fileOps.written))) := by
    apply List.filter_congr
    intro f _
    rw [decide_eq_decide, mem_dedupKeepFirst, List.mem_append]
  have hreadperm : (computeFileLists fileOps).readFiles.Perm
      (fileOps.read.filter (fun f => ¬(f ∈ fileOps.edited ∨ f ∈ fileOps.written))) := by
    show (List.insertionSort strDataLe _).Perm _
    rw [hfiltereq]
    exact List.perm_insertionSort strDataLe _
  refine ⟨?_, ?_, hmodmem, ?_, hreadperm, ?_⟩
  · exact List.sorted_insertionSort strDataLe _
  · exact ((List.perm_insertionSort strDataLe _).nodup_iff).mpr
      (nodup_dedupKeepFirstAux _ [])
  · exact List.sorted_insertionSort strDataLe _
  · intro f hf hmod
    have h1 := hreadperm.mem_iff.mp hf
    have h2 := (List.mem_filter.mp h1).2
    rw [decide_eq_true_eq] at h2
    exact h2 ((hmodmem f).mp hmod)

-- =============================================================================
-- C9: tool-failure collection and rendering
-- =============================================================================

theorem collectAux_map_ids :
    ∀ (ms : List Message) (seen : List String),
      (collectToolFailuresAux seen ms).map (·.toolCallId) =
        dedupKeepFirstAux seen (eligibleFailureIds ms) := by
  intro ms
  induction ms with
  | nil => intro seen; rfl
  | cons m ms ih =>
      intro seen
      by_cases h1 : m.role = "toolResult" ∧ m.isError = true
      · rw [collectToolFailuresAux, if_pos h1]
        by_cases h3 : m.toolCallId = ""
        · rw [if_pos (Or.inl h3)]
          have he : eligibleFailureIds (m :: ms) = eligibleFailureIds ms := by
            unfold eligibleFailureIds
            rw [List.filter_cons, if_neg (by simp [h3])]
          rw [he]
          exact ih seen
        · have he : eligibleFailureIds (m :: ms) =
              m.toolCallId :: eligibleFailureIds ms := by
            unfold eligibleFailureIds
            rw [List.filter_cons, if_pos (by simp [h1.1, h1.2, h3])]
            rfl
          rw [he]
          by_cases h2 : m.toolCallId ∈ seen
          · rw [if_pos (Or.inr h2), dedupKeepFirstAux, if_pos h2]
            exact ih seen
          · rw [if_neg (by simp [h3, h2]), dedupKeepFirstAux, if_neg h2]
            simp only [List.map_cons]
            rw [ih (m.toolCallId :: seen)]
            rfl
      · rw [collectToolFailuresAux, if_neg h1]
        have he : eligibleFailureIds (m :: ms) = eligibleFailureIds ms := by
          unfold eligibleFailureIds
          rw [List.filter_cons, if_neg (by
            simp only [decide_eq_true_eq]
            intro hc
            exact h1 ⟨hc.1, hc.2.1⟩)]
        rw [he]
        exact ih seen

theorem truncateFailureText_length (t : String) :
    (truncateFailureText t MAX_TOOL_FAILURE_CHARS).length ≤ MAX_TOOL_FAILURE_CHARS := by
  unfold truncateFailureText
  split
  · assumption
  · have h1 : (jsTake t (MAX_TOOL_FAILURE_CHARS - 3)).length ≤ MAX_TOOL_FAILURE_CHARS - 3 := by
      show (t.data.take (MAX_TOOL_FAILURE_CHARS - 3)).length ≤ MAX_TOOL_FAILURE_CHARS - 3
      rw [List.length_take]
      exact min_le_left _ _
    have h2 : (jsTake t (MAX_TOOL_FAILURE_CHARS - 3) ++ "...").length =
        (jsTake t (MAX_TOOL_FAILURE_CHARS - 3)).length + 3 := by
      rw [String.length_append]
      rfl
    rw [h2]
    have h3 : MAX_TOOL_FAILURE_CHARS - 3 + 3 = MAX_TOOL_FAILURE_CHARS := by
      norm_num [MAX_TOOL_FAILURE_CHARS]
    omega

theorem collectAux_summary_length :
    ∀ (ms : List Message) (seen : List String),
      ∀ f ∈ collectToolFailuresAux seen ms,
        f.summary.length ≤ MAX_TOOL_FAILURE_CHARS := by
  intro ms
  induction ms with
  | nil => intro seen f hf; simp [collectToolFailuresAux] at hf
  | cons m ms ih =>
      intro seen f hf
      rw [collectToolFailuresAux] at hf
      split at hf
      · split at hf
        · exact ih seen f hf
        · rcases List.mem_cons.mp hf with h | h
          · rw [h]
            exact truncateFailureText_length _
          · exact ih _ f h
      · exact ih seen f hf

/-- Claim C9: `collectToolFailures` yields exactly one entry per distinct
non-empty `toolCallId` among error tool results, keeping first occurrences
and skipping later duplicates; every collected summary is at most 240
characters; `formatToolFailuresSection` renders at most eight failure lines,
and when more failures were collected it appends a single overflow line
naming the excess count as its last line. -/
theorem tool_failures_collection_spec (messages : List Message) :
    (collectToolFailures messages).map (fun f => f.toolCallId) =
      dedupKeepFirst (eligibleFailureIds messages) ∧
    (∀ f ∈ collectToolFailures messages, f.summary.length ≤ MAX_TOOL_FAILURE_CHARS) ∧
    (toolFailureLines (collectToolFailures messages)).length =
      min (collectToolFailures messages).length MAX_TOOL_FAILURES +
        (if MAX_TOOL_FAILURES < (collectToolFailures messages).length then 1 else 0) ∧
    (MAX_TOOL_FAILURES < (collectToolFailures messages).length →
      (toolFailureLines (collectToolFailures messages)).getLast? =
        some ("- ...and " ++
          toString ((collectToolFailures messages).length - MAX_TOOL_FAILURES) ++ " more")) := by
  refine ⟨collectAux_map_ids messages [], collectAux_summary_length messages [], ?_, ?_⟩
  · unfold toolFailureLines
    split
    · rename_i hgt
      rw [List.length_append, List.length_map, List.length_take, List.length_singleton]
      omega
    · rename_i hle
      rw [List.length_map, List.length_take]
      simp only [gt_iff_lt, not_lt] at hle
      omega
  · intro hgt
    unfold toolFailureLines
    rw [if_pos (by simpa [gt_iff_lt] using hgt)]
    exact List.getLast?_concat _

/-- Witness for C9 at a concrete input: nine distinct failures produce an
overflow line as the last rendered line. -/
theorem tool_failures_collection_spec_witness :
    MAX_TOOL_FAILURES < (collectToolFailures msgs9).length ∧
    (toolFailureLines (collectToolFailures msgs9)).getLast? =
      some ("- ...and " ++
        toString ((collectToolFailures msgs9).length - MAX_TOOL_FAILURES) ++ " more") :=
  ⟨by decide, (tool_failures_collection_spec msgs9).2.2.2 (by decide)⟩

-- =============================================================================
-- C10: password context values are masked
-- =============================================================================

theorem lookup_append_str (l1 l2 : List (String × String)) (key : String) :
    (l1 ++ l2).lookup key = ((l1.lookup key).orElse (fun _ => l2.lookup key)) := by
  induction l1 with
  | nil => rfl
  | cons p l1 ih =>
      rcases p with ⟨a, b⟩
      cases h : key == a
      · simp only [List.cons_append, List.lookup, h]
        exact ih
      · simp only [List.cons_append, List.lookup, h]
        rfl

theorem ctxPatStep_preserves (oracle : RegexOracle) (text : String)
    (ctx : List (String × String)) (pk : PatternId × String)
    (hk : pk.2 ≠ "password") :
    (ctxPatStep oracle text ctx pk).lookup "password" = ctx.lookup "password" := by
  rcases hm : (oracle pk.1 text).head? with _ | m
  · simp only [ctxPatStep, hm]
  · simp only [ctxPatStep, hm]
    by_cases hl : (List.lookup pk.2 ctx).isNone = true
    · rw [if_pos hl, if_neg (fun hc => hk hc.1)]
      rw [lookup_append_str]
      have hne : ("password" == pk.2) = false := by
        simp only [beq_eq_false_iff_ne, ne_eq]
        exact fun h => hk h.symm
      simp [List.lookup, hne]
    · rw [if_neg hl]

theorem ctxPatStep_password (oracle : RegexOracle) (text : String)
    (ctx : List (String × String)) (v : String)
    (hv : (ctxPatStep oracle text ctx (.ctxPassword, "password")).lookup "password" =
      some v) :
    ctx.lookup "password" = some v ∨
    ∃ rm, (oracle .ctxPassword text).head? = some rm ∧
      v = (if 4 < (capOrWhole rm).length then jsTake (capOrWhole rm) 4 ++ "..."
           else jsTake (capOrWhole rm) 50) := by
  rcases hm : (oracle .ctxPassword text).head? with _ | m
  · simp only [ctxPatStep, hm] at hv
    exact Or.inl hv
  · simp only [ctxPatStep, hm] at hv
    by_cases hl : (List.lookup "password" ctx).isNone = true
    · rw [if_pos hl] at hv
      rw [Option.isNone_iff_eq_none] at hl
      by_cases hlen : 4 < (capOrWhole m).length
      · rw [if_pos ⟨trivial, hlen⟩] at hv
        rw [lookup_append_str, hl] at hv
        simp only [List.lookup, beq_self_eq_true] at hv
        refine Or.inr ⟨m, rfl, ?_⟩
        rw [if_pos hlen]
        exact (Option.some.inj hv).symm
      · rw [if_neg (fun hc => hlen hc.2)] at hv
        rw [lookup_append_str, hl] at hv
        simp only [List.lookup, beq_self_eq_true] at hv
        refine Or.inr ⟨m, rfl, ?_⟩
        rw [if_neg hlen]
        exact (Option.some.inj hv).symm
    · rw [if_neg hl] at hv
      exact Or.inl hv

theorem contextStep_password (oracle : RegexOracle) (text : String)
    (ctx : List (String × String)) (v : String)
    (hv : (contextStep oracle text ctx).lookup "password" = some v) :
    ctx.lookup "password" = some v ∨
    ∃ rm, (oracle .ctxPassword text).head? = some rm ∧
      v = (if 4 < (capOrWhole rm).length then jsTake (capOrWhole rm) 4 ++ "..."
           else jsTake (capOrWhole rm) 50) := by
  unfold contextStep contextPatternKeys at hv
  simp only [List.foldl_cons, List.foldl_nil] at hv
  rw [ctxPatStep_preserves oracle text _ (.ctxIp, "ip") (by decide)] at hv
  rw [ctxPatStep_preserves oracle text _ (.ctxUsername, "username") (by decide)] at hv
  rcases ctxPatStep_password oracle text _ v hv with h | h
  · rw [ctxPatStep_preserves oracle text _ (.ctxUrl, "url") (by decide)] at h
    exact Or.inl h
  · exact Or.inr h

theorem jsTake_of_length_le (s : String) (n : Nat) (h : s.length ≤ n) :
    jsTake s n = s := by
  unfold jsTake
  rw [List.take_of_length_le h]

theorem wipStep_password (oracle : RegexOracle) (st : WipScan) (m : Message)
    (v : String)
    (hv : (wipStep oracle st m).context.lookup "password" = some v) :
    st.context.lookup "password" = some v ∨
    (m.role = "assistant" ∧
      ∃ rm, (oracle .ctxPassword (extractMessageText m)).head? = some rm ∧
        v = (if 4 < (capOrWhole rm).length then jsTake (capOrWhole rm) 4 ++ "..."
             else jsTake (capOrWhole rm) 50)) := by
  by_cases hr : m.role ≠ "assistant"
  · rw [wipStep, if_pos hr] at hv
    exact Or.inl hv
  · rw [wipStep, if_neg hr] at hv
    have hrole : m.role = "assistant" := not_not.mp hr
    have hctx : (wipStep oracle st m).context =
        contextStep oracle (extractMessageText m) st.context := by
      rw [wipStep, if_neg hr]
    rcases contextStep_password oracle (extractMessageText m) st.context v hv with h | h
    · exact Or.inl h
    · exact Or.inr ⟨hrole, h⟩

theorem foldl_wipStep_password (oracle : RegexOracle) :
    ∀ (msgs : List Message) (st : WipScan) (v : String),
      ((msgs.foldl (wipStep oracle) st).context.lookup "password" = some v) →
      st.context.lookup "password" = some v ∨
      ∃ m, m ∈ msgs ∧ m.role = "assistant" ∧
        ∃ rm, (oracle .ctxPassword (extractMessageText m)).head? = some rm ∧
          v = (if 4 < (capOrWhole rm).length then jsTake (capOrWhole rm) 4 ++ "..."
               else jsTake (capOrWhole rm) 50) := by
  intro msgs
  induction msgs with
  | nil => intro st v hv; exact Or.inl hv
  | cons m ms ih =>
      intro st v hv
      rw [List.foldl_cons] at hv
      rcases ih (wipStep oracle st m) v hv with h | ⟨m', hmem, hrest⟩
      · rcases wipStep_password oracle st m v h with h' | ⟨hrole, hprov⟩
        · exact Or.inl h'
        · exact Or.inr ⟨m, List.mem_cons_self m ms, hrole, hprov⟩
      · exact Or.inr ⟨m', List.mem_cons_of_mem m hmem, hrest⟩

/-- Claim C10: every value stored under the password context key comes from
a first password-pattern match on some assistant message, and when the
matched value is longer than four characters the stored value is its first
four characters followed by an ellipsis (never the full secret); a matched
value of length exactly four is stored verbatim. -/
theorem password_context_masked (oracle : RegexOracle) (messages : List Message)
    (fileOps : FileLists) (wip : WorkInProgress) (v : String)
    (hw : extractWorkInProgress oracle messages fileOps = some wip)
    (hv : wip.context.lookup "password" = some v) :
    ∃ m, m ∈ messages ∧ m.role = "assistant" ∧
      ∃ rm, (oracle .ctxPassword (extractMessageText m)).head? = some rm ∧
        (4 < (capOrWhole rm).length → v = jsTake (capOrWhole rm) 4 ++ "...") ∧
        ((capOrWhole rm).length = 4 → v = capOrWhole rm) := by
  have hctx : wip.context =
      (messages.foldl (wipStep oracle) WipScan.init).context := by
    simp only [extractWorkInProgress] at hw
    repeat' split at hw
    · exact absurd hw (by simp)
    · have h9 := Option.some.inj hw
      subst h9
      rfl
    · exact absurd hw (by simp)
    · have h9 := Option.some.inj hw
      subst h9
      rfl
    · exact absurd hw (by simp)
  rw [hctx] at hv
  rcases foldl_wipStep_password oracle messages WipScan.init v hv with h | ⟨m, hmem, hrole, rm, hrm, hval⟩
  · exact absurd h (by simp [WipScan.init])
  · refine ⟨m, hmem, hrole, rm, hrm, ?_, ?_⟩
    · intro h4
      rw [if_pos h4] at hval
      exact hval
    · intro h4
      rw [if_neg (by omega)] at hval
      rw [hval]
      exact jsTake_of_length_le _ _ (by omega)

/-- Witness for C10 at a concrete input: a thirteen-character password is
stored as its first four characters plus an ellipsis. -/
theorem password_context_masked_witness :
    ∃ m, m ∈ msgsW ∧ m.role = "assistant" ∧
      ∃ rm, (oracleW .ctxPassword (extractMessageText m)).head? = some rm ∧
        (4 < (capOrWhole rm).length → "hunt..." = jsTake (capOrWhole rm) 4 ++ "...") ∧
        ((capOrWhole rm).length = 4 → "hunt..." = capOrWhole rm) :=
  password_context_masked oracleW msgsW ⟨[], []⟩ wipW "hunt..." rfl rfl

/-- Witness for the amended C6 at a concrete input. -/
theorem artifact_passthrough_fields_witness :
    (handleCompact env0 prepFiles none).1.firstKeptEntryId = prepFiles.firstKeptEntryId ∧
    (handleCompact env0 prepFiles none).1.tokensBefore = prepFiles.tokensBefore ∧
    (handleCompact env0 prepFiles none).1.readFiles =
      (computeFileLists prepFiles.fileOps).readFiles ∧
    (handleCompact env0 prepFiles none).1.modifiedFiles =
      (computeFileLists prepFiles.fileOps).modifiedFiles :=
  artifact_passthrough_fields env0 prepFiles none

/-- Witness for C7 at a concrete input. -/
theorem aux_sections_fixed_order_witness :
    ∃ base, (handleCompact env0 prep0 none).1.summary =
      base ++ toolFailureSectionOf prep0 ++ fileOpsSummaryOf prep0 ++
        env0.memoriesSection :=
  aux_sections_fixed_order env0 prep0 none

/-- Witness for C8 at a concrete input. -/
theorem computeFileLists_spec_witness :
    List.Sorted strDataLe (computeFileLists fileOpsW).modifiedFiles ∧
    (computeFileLists fileOpsW).modifiedFiles.Nodup ∧
    (∀ f, f ∈ (computeFileLists fileOpsW).modifiedFiles ↔
      f ∈ fileOpsW.edited ∨ f ∈ fileOpsW.written) ∧
    List.Sorted strDataLe (computeFileLists fileOpsW).readFiles ∧
    (computeFileLists fileOpsW).readFiles.Perm
      (fileOpsW.read.filter (fun f => ¬(f ∈ fileOpsW.edited ∨ f ∈ fileOpsW.written))) ∧
    (∀ f, f ∈ (computeFileLists fileOpsW).readFiles →
      f ∉ (computeFileLists fileOpsW).modifiedFiles) :=
  computeFileLists_spec fileOpsW
